import Mathlib

/-!
Shallow embedding of `src/main.py` (midi-parquet): a pipeline that scans a
directory for `*.tar.gz` / `*.zip` archives, extracts the entries whose names
end (case-insensitively) in `.mid` / `.midi`, aggregates the extracted records
into one table, computes size statistics and persists the table.

File names and entry names are modelled as `List Char`; byte payloads as
`List Nat`.  Python string/path primitives used by the code
(`pathlib.PurePath.stem`, `str.replace`, `os.path.basename`, `str.lower`,
`str.endswith`) are embedded as executable Lean functions on `List Char`.
-/

namespace MidiParquet

/-- Index of the last occurrence of character `c` in `s`, as Python
`str.rfind` (but as an `Option` instead of `-1` for absence). -/
def rfindChar (c : Char) (s : List Char) : Option Nat :=
  match s.reverse.findIdx? (fun x => x = c) with
  | none => none
  | some j => some (s.length - 1 - j)

/-- Embedding of `pathlib.PurePath.stem` applied to a file name (the final
path component): the name without its last dot-suffix, where a suffix exists
only if the last dot is neither the first nor the last character. -/
def pyStem (name : List Char) : List Char :=
  match rfindChar '.' name with
  | none => name
  | some i => if 0 < i ∧ i < name.length - 1 then name.take i else name

/-- Embedding of `pathlib.PurePath.suffix` applied to a file name. -/
def pySuffix (name : List Char) : List Char :=
  match rfindChar '.' name with
  | none => []
  | some i => if 0 < i ∧ i < name.length - 1 then name.drop i else []

/-- Fuel-indexed scanner behind `pyReplace`; one unit of fuel is spent per
character position, exactly the left-to-right non-overlapping scan of Python
`str.replace`. -/
def replaceFuel (pat rep : List Char) : Nat → List Char → List Char
  | _, [] => []
  | 0, s => s
  | fuel + 1, c :: rest =>
    if !pat.isEmpty && pat.isPrefixOf (c :: rest) then
      rep ++ replaceFuel pat rep fuel (List.drop pat.length (c :: rest))
    else
      c :: replaceFuel pat rep fuel rest

/-- Embedding of Python `s.replace(pat, rep)` for a non-empty pattern:
left-to-right, non-overlapping replacement of every occurrence. -/
def pyReplace (s pat rep : List Char) : List Char :=
  replaceFuel pat rep s.length s

/-- Embedding of `os.path.basename` (POSIX): everything after the last `/`. -/
def basename (name : List Char) : List Char :=
  match rfindChar '/' name with
  | none => name
  | some i => name.drop (i + 1)

/-- Group of a tar-gzip archive, from `extract_midi_from_tar` line 35:
`tar_path.stem.replace('.tar', '')`. -/
def tarGroup (name : List Char) : List Char :=
  pyReplace (pyStem name) ".tar".data []

/-- Group of a zip archive, from `extract_midi_from_zip` line 61:
`zip_path.stem`. -/
def zipGroup (name : List Char) : List Char :=
  pyStem name

/-- A file name is discovered as a tar-gzip archive by
`glob("**/*.tar.gz")` (`find_archives`): its basename ends with `.tar.gz`
and, per glob's hidden-file rule, does not start with a dot. -/
def isDiscoveredTarGz (name : List Char) : Bool :=
  List.isSuffixOf ".tar.gz".data name && !(name.head? = some '.' : Bool)

/-- A file name is discovered as a zip archive by `glob("**/*.zip")`
(`find_archives`): its basename ends with `.zip` and does not start with a
dot. -/
def isDiscoveredZip (name : List Char) : Bool :=
  List.isSuffixOf ".zip".data name && !(name.head? = some '.' : Bool)

/-- Boolean side condition used by the `pyReplace` lemmas: the pattern has no
proper self-overlap (no prefix of it is simultaneously a suffix-completion),
so occurrences cannot straddle a previous occurrence.  Checked by `decide`
for the concrete pattern `".tar"`. -/
def noSelfOverlapB (pat : List Char) : Bool :=
  (List.range pat.length).all fun k =>
    decide (k = 0) || decide (pat.drop k ≠ pat.take (pat.length - k))

/-- One extracted payload row, `(group, file_name, content, file_size)` as
appended by `extract_midi_from_tar` line 50 / `extract_midi_from_zip`
line 74 and turned into a table row by `process_archives`. -/
structure Record where
  group : List Char
  file_name : List Char
  content : List Nat
  file_size : Nat
deriving DecidableEq, Repr

/-- Outcome of `tar.extractfile(member)` followed by `file_obj.read()` inside
the per-entry `try` of `extract_midi_from_tar` (lines 45-52): the call raises
(`exn`, caught and logged), returns `None` (`noObj`, the `if file_obj:` test
fails silently), or yields the entry's bytes (`ok`). -/
inductive ExtractOutcome where
  | exn : ExtractOutcome
  | noObj : ExtractOutcome
  | ok : List Nat → ExtractOutcome
deriving DecidableEq, Repr

/-- A member of an opened tar archive: its name, whether `member.isfile()`
holds, and what extracting it yields. -/
structure TarMember where
  name : List Char
  isfile : Bool
  extract : ExtractOutcome
deriving DecidableEq, Repr

/-- An entry of an opened zip archive: its `filename` and the outcome of
`zip_file.read(file_info)` (`none` models the read raising, caught and
logged at lines 75-76). -/
structure ZipInfo where
  filename : List Char
  read : Option (List Nat)
deriving DecidableEq, Repr

/-- Embedding of `zipfile.ZipInfo.is_dir`: the stored filename ends with a
slash. -/
def zipIsDir (fi : ZipInfo) : Bool :=
  List.isSuffixOf "/".data fi.filename

/-- The per-entry filter of lines 44 and 70:
`any(file_name.lower().endswith(ext) for ext in ['.mid', '.midi'])`. -/
def isMidiName (name : List Char) : Bool :=
  List.isSuffixOf ".mid".data (name.map Char.toLower) ||
    List.isSuffixOf ".midi".data (name.map Char.toLower)

/-- A log line printed by the extraction functions: the per-entry read
warning (lines 52 and 76) or the archive-open error (lines 54 and 78). -/
inductive LogMsg where
  | readWarn : List Char → List Char → LogMsg
  | openErr : List Char → LogMsg
deriving DecidableEq, Repr

/-- Records contributed by one tar member (loop body, lines 41-52). -/
def tarMemberRecs (group : List Char) (m : TarMember) : List Record :=
  if m.isfile && isMidiName m.name then
    match m.extract with
    | ExtractOutcome.ok c => [⟨group, basename m.name, c, c.length⟩]
    | ExtractOutcome.noObj => []
    | ExtractOutcome.exn => []
  else []

/-- Log lines printed while processing one tar member: only the failed
extraction (`except` at lines 51-52) prints; the `extractfile = None` case
prints nothing. -/
def tarMemberLogs (apath : List Char) (m : TarMember) : List LogMsg :=
  if m.isfile && isMidiName m.name then
    match m.extract with
    | ExtractOutcome.exn => [LogMsg.readWarn apath m.name]
    | ExtractOutcome.noObj => []
    | ExtractOutcome.ok _ => []
  else []

/-- Embedding of `extract_midi_from_tar` (lines 33-56).  `opened` is the
outcome of `tarfile.open`: `none` when it raises (outer `except`, lines
53-54), otherwise the member list.  Returns the accumulated `results`
together with the log lines printed, each stream in loop order. -/
def extract_midi_from_tar (apath : List Char) (opened : Option (List TarMember)) :
    List Record × List LogMsg :=
  match opened with
  | none => ([], [LogMsg.openErr apath])
  | some ms =>
    (ms.flatMap (tarMemberRecs (tarGroup apath)), ms.flatMap (tarMemberLogs apath))

/-- Records contributed by one zip entry (loop body, lines 66-76). -/
def zipEntryRecs (group : List Char) (fi : ZipInfo) : List Record :=
  if !zipIsDir fi && isMidiName fi.filename then
    match fi.read with
    | some c => [⟨group, basename fi.filename, c, c.length⟩]
    | none => []
  else []

/-- Log lines printed while processing one zip entry (only the failed read
prints, lines 75-76). -/
def zipEntryLogs (apath : List Char) (fi : ZipInfo) : List LogMsg :=
  if !zipIsDir fi && isMidiName fi.filename then
    match fi.read with
    | none => [LogMsg.readWarn apath fi.filename]
    | some _ => []
  else []

/-- Embedding of `extract_midi_from_zip` (lines 59-80), mirroring
`extract_midi_from_tar`. -/
def extract_midi_from_zip (apath : List Char) (opened : Option (List ZipInfo)) :
    List Record × List LogMsg :=
  match opened with
  | none => ([], [LogMsg.openErr apath])
  | some fis =>
    (fis.flatMap (zipEntryRecs (zipGroup apath)), fis.flatMap (zipEntryLogs apath))

/-- Bytes a tar member yields when its extraction succeeds (meaningful under
the hypothesis that it does succeed). -/
def tarContent (m : TarMember) : List Nat :=
  match m.extract with
  | ExtractOutcome.ok c => c
  | ExtractOutcome.noObj => []
  | ExtractOutcome.exn => []

/-- Bytes a zip entry yields when its read succeeds. -/
def zipContent (fi : ZipInfo) : List Nat :=
  fi.read.getD []

/-- The record line 50 appends for a successfully read tar member. -/
def tarRecord (group : List Char) (m : TarMember) : Record :=
  ⟨group, basename m.name, tarContent m, (tarContent m).length⟩

/-- The record line 74 appends for a successfully read zip entry. -/
def zipRecord (group : List Char) (fi : ZipInfo) : Record :=
  ⟨group, basename fi.filename, zipContent fi, (zipContent fi).length⟩

/-- One discovered archive, carrying its file name and what opening it in
either format would yield (`none` models the open raising). -/
structure Archive where
  name : List Char
  tarOpened : Option (List TarMember)
  zipOpened : Option (List ZipInfo)
deriving DecidableEq

/-- Embedding of `process_single_archive` (lines 83-90): dispatch on
`archive.suffix.lower() == '.zip'`, then on
`archive.name.lower().endswith('.tar.gz')`, else no records. -/
def process_single_archive (a : Archive) : List Record :=
  if (pySuffix a.name).map Char.toLower = ".zip".data then
    (extract_midi_from_zip a.name a.zipOpened).1
  else if List.isSuffixOf ".tar.gz".data (a.name.map Char.toLower) then
    (extract_midi_from_tar a.name a.tarOpened).1
  else []

/-- Table built by the collection loop of `process_archives` (lines 183-195)
when the futures complete in the given order: the per-archive result lists
concatenated in completion order. -/
def process_archives_order (order : List Archive) : List Record :=
  order.flatMap process_single_archive

/-- Embedding of `get_size_category` (lines 93-104). -/
def get_size_category (size_bytes : Nat) : List Char :=
  if size_bytes < 1024 then "< 1KB".data
  else if size_bytes < 10 * 1024 then "1KB - 10KB".data
  else if size_bytes < 100 * 1024 then "10KB - 100KB".data
  else if size_bytes < 1024 * 1024 then "100KB - 1MB".data
  else "> 1MB".data

/-- Total record count of a table (`df.height`). -/
def totalCount (t : List Record) : Nat := t.length

/-- Sum of `file_size` over a table (`df['file_size'].sum()`). -/
def totalSize (t : List Record) : Nat := (t.map Record.file_size).sum

/-- Number of records of a table falling in the size bucket labelled `b`
(the `group_by('size_category').agg(len)` of `plot_size_distribution`). -/
def bucketCount (b : List Char) (t : List Record) : Nat :=
  t.countP fun r => decide (get_size_category r.file_size = b)

/-- Number of records of a table belonging to group `g` (the per-group
`group_by('group').agg(len)` of `main`, lines 301-304). -/
def groupCount (g : List Char) (t : List Record) : Nat :=
  t.countP fun r => decide (r.group = g)

/-- Default worker count of `process_archives` (lines 172-173):
`min(mp.cpu_count(), len(archives))`. -/
def default_max_workers (cpuCount nArchives : Nat) : Nat :=
  min cpuCount nArchives

/-- Worker count actually used for a given `--jobs` value (`args.jobs`
defaults to `None`, line 259, and is passed through at line 293). -/
def effective_max_workers (jobs : Option Nat) (cpuCount nArchives : Nat) : Nat :=
  match jobs with
  | some j => j
  | none => default_max_workers cpuCount nArchives

/-- Observable filesystem / console effects of `save_to_parquet`. -/
structure SaveEffect where
  wroteArtifact : Bool
  createdOutputDirs : Bool
  warnedEmpty : Bool
  reportedCount : Option Nat
deriving DecidableEq, Repr

/-- Embedding of `save_to_parquet` (lines 209-231): on an empty table it
prints the warning and returns before the `mkdir` and the write; otherwise
it creates the parent directories, writes the artifact and reports
`df.height` records written. -/
def save_to_parquet (df : List Record) : SaveEffect :=
  if df.length = 0 then ⟨false, false, true, none⟩
  else ⟨true, true, false, some df.length⟩

/-- Abstract input of one run of `main`: whether the resolved input path
exists and is a directory, and the archives `find_archives` returns. -/
structure RunInput where
  inputExists : Bool
  inputIsDir : Bool
  archives : List Archive
deriving DecidableEq

/-- Observable outcome of `main`: the returned exit code and whether the
output artifact got written. -/
structure RunOutcome where
  exitCode : Nat
  artifactWritten : Bool
deriving DecidableEq, Repr

/-- Embedding of `main` (lines 234-317): validate the input directory
(lines 273-279), require at least one archive (lines 286-288), build the
table, require at least one record (lines 295-297), then persist and return
0.  A failing final write would raise past `main`; that exception channel is
outside the returned exit code modelled here. -/
def mainModel (ri : RunInput) : RunOutcome :=
  if !ri.inputExists then ⟨1, false⟩
  else if !ri.inputIsDir then ⟨1, false⟩
  else if ri.archives.isEmpty then ⟨1, false⟩
  else
    let df := process_archives_order ri.archives
    if df.isEmpty then ⟨1, false⟩
    else ⟨0, (save_to_parquet df).wroteArtifact⟩

/-! Concrete sample inputs used by the witness theorems below. -/

/-- Sample zip archive name. -/
def wZipName : List Char := "b.zip".data

/-- Sample tar archive name. -/
def wTarName : List Char := "a.tar.gz".data

/-- Sample discovered zip archive name for the C1 witness. -/
def wBarZip : List Char := "bar.zip".data

/-- Sample discovered tar-gzip archive name for the C1 witness. -/
def wXTarGz : List Char := "x.tar.gz".data

/-- Sample directory member of a tar archive. -/
def wTarMemberDir : TarMember := ⟨"d".data, false, ExtractOutcome.noObj⟩

/-- Sample non-MIDI regular member of a tar archive. -/
def wTarMemberTxt : TarMember := ⟨"d/readme.txt".data, true, ExtractOutcome.ok [1]⟩

/-- Sample readable MIDI member of a tar archive, inside a directory. -/
def wTarMemberMid : TarMember := ⟨"d/song.mid".data, true, ExtractOutcome.ok [77, 84]⟩

/-- Sample readable MIDI member `x.mid`. -/
def wTarMemberX : TarMember := ⟨"x.mid".data, true, ExtractOutcome.ok [1]⟩

/-- Sample MIDI member whose extraction yields no file object. -/
def wTarMemberY : TarMember := ⟨"y.mid".data, true, ExtractOutcome.noObj⟩

/-- Sample readable MIDI member `z.mid`. -/
def wTarMemberZ : TarMember := ⟨"z.mid".data, true, ExtractOutcome.ok [2]⟩

/-- Sample MIDI member whose extraction raises. -/
def wTarMemberW : TarMember := ⟨"w.mid".data, true, ExtractOutcome.exn⟩

/-- Sample readable zip entry `x.mid`. -/
def wZipEntryX : ZipInfo := ⟨"x.mid".data, some [1]⟩

/-- Sample zip entry whose read raises. -/
def wZipEntryY : ZipInfo := ⟨"y.mid".data, none⟩

/-- Sample readable zip entry `z.mid`. -/
def wZipEntryZ : ZipInfo := ⟨"z.mid".data, some [2]⟩

/-- Sample one-record table row. -/
def wRecord : Record := ⟨"g".data, "s.mid".data, [1], 1⟩

/-- Sample discovered zip archive with one readable MIDI entry. -/
def wZipArchive : Archive := ⟨"b.zip".data, none, some [⟨"t.midi".data, some [9]⟩]⟩

/-- The record `wZipArchive` yields. -/
def wZipArchiveRecord : Record := ⟨"b".data, "t.midi".data, [9], 1⟩

/-- Sample discovered tar archive with one readable MIDI member. -/
def wTarArchive : Archive :=
  ⟨"a.tar.gz".data, some [⟨"s.mid".data, true, ExtractOutcome.ok [7]⟩], none⟩

/-! Helper lemmas about the embedded string primitives. -/

theorem replaceFuel_nil (pat rep : List Char) (fuel : Nat) :
    replaceFuel pat rep fuel [] = [] := by
  cases fuel <;> rfl

theorem not_isPrefixOf_append_of_lt (pat t : List Char)
    (hov : noSelfOverlapB pat = true) (ht : t ≠ [])
    (hlt : t.length < pat.length) :
    ¬ pat.isPrefixOf (t ++ pat) = true := by
  intro h
  have hpre : pat <+: t ++ pat := List.isPrefixOf_iff_prefix.mp h
  obtain ⟨u, hu⟩ := hpre
  have hul : u.length = t.length := by
    have hL := congrArg List.length hu
    rw [List.length_append, List.length_append] at hL
    omega
  have hdrop : pat.drop t.length ++ u = pat := by
    have h1 : (pat ++ u).drop t.length = pat.drop t.length ++ u := by
      rw [List.drop_append_eq_append_drop]
      have h0 : t.length - pat.length = 0 := by omega
      rw [h0, List.drop_zero]
    have h2 : (t ++ pat).drop t.length = pat := List.drop_left t pat
    rw [← h1, hu, h2]
  have htake : pat.drop t.length = pat.take (pat.length - t.length) := by
    have h3 : (pat.drop t.length ++ u).take (pat.length - t.length) =
        pat.drop t.length := by
      have hdl : (pat.drop t.length).length = pat.length - t.length := by
        simp
      exact List.take_left' hdl
    rw [hdrop] at h3
    exact h3.symm
  have hmem := List.all_eq_true.mp hov t.length (List.mem_range.mpr hlt)
  have ht0 : 0 < t.length := List.length_pos.mpr ht
  simp at hmem
  rcases hmem with h0 | hne
  · exact ht h0
  · exact hne htake

theorem replaceFuel_append_pat (pat rep : List Char) (hne : pat ≠ [])
    (hov : noSelfOverlapB pat = true) :
    ∀ (s : List Char) (fuel : Nat), (s ++ pat).length ≤ fuel →
      ¬ (pat <:+: s) → replaceFuel pat rep fuel (s ++ pat) = s ++ rep := by
  intro s
  induction s with
  | nil =>
    intro fuel hf _
    cases pat with
    | nil => exact absurd rfl hne
    | cons c pt =>
      cases fuel with
      | zero => simp at hf
      | succ f =>
        have hpre : (c :: pt).isPrefixOf (c :: pt) = true :=
          List.isPrefixOf_iff_prefix.mpr (List.prefix_refl _)
        simp only [List.nil_append]
        rw [replaceFuel]
        simp [hpre, List.drop_length, replaceFuel_nil]
  | cons c s' ih =>
    intro fuel hf hinf
    cases fuel with
    | zero => simp at hf
    | succ f =>
      have hguard : pat.isPrefixOf (c :: (s' ++ pat)) = false := by
        cases hb : pat.isPrefixOf (c :: (s' ++ pat)) with
        | false => rfl
        | true =>
          exfalso
          have hb' : pat.isPrefixOf ((c :: s') ++ pat) = true := by
            simpa using hb
          rcases Nat.lt_or_ge (c :: s').length pat.length with hlt | hge
          · exact not_isPrefixOf_append_of_lt pat (c :: s') hov (by simp) hlt hb'
          · have hp : pat <+: (c :: s') ++ pat :=
              List.isPrefixOf_iff_prefix.mp hb'
            have hp2 : pat <+: (c :: s') :=
              List.prefix_of_prefix_length_le hp
                (List.prefix_append (c :: s') pat) (by simpa using hge)
            exact hinf hp2.isInfix
      have hinf' : ¬ (pat <:+: s') := fun hx => hinf (List.infix_cons hx)
      have hf' : (s' ++ pat).length ≤ f := by
        simp [List.length_append] at hf ⊢
        omega
      simp only [List.cons_append]
      rw [replaceFuel]
      simp [hguard]
      exact ih f hf' hinf'

theorem pyReplace_append_pat (s pat rep : List Char) (hne : pat ≠ [])
    (hov : noSelfOverlapB pat = true) (hinf : ¬ (pat <:+: s)) :
    pyReplace (s ++ pat) pat rep = s ++ rep :=
  replaceFuel_append_pat pat rep hne hov s (s ++ pat).length (Nat.le_refl _) hinf

theorem rfindChar_append_zip (core : List Char) :
    rfindChar '.' (core ++ ".zip".data) = some core.length := by
  unfold rfindChar
  rw [List.reverse_append]
  have h4 : ".zip".data.reverse = ['p', 'i', 'z', '.'] := by decide
  rw [h4, List.findIdx?_append]
  have h5 : List.findIdx? (fun x => decide (x = '.')) ['p', 'i', 'z', '.'] =
      some 3 := by decide
  rw [h5]
  simp [List.length_append]

theorem rfindChar_append_gz (core : List Char) :
    rfindChar '.' (core ++ ".gz".data) = some core.length := by
  unfold rfindChar
  rw [List.reverse_append]
  have h4 : ".gz".data.reverse = ['z', 'g', '.'] := by decide
  rw [h4, List.findIdx?_append]
  have h5 : List.findIdx? (fun x => decide (x = '.')) ['z', 'g', '.'] =
      some 2 := by decide
  rw [h5]
  simp [List.length_append]

theorem pyStem_append_zip (core : List Char) (hc : core ≠ []) :
    pyStem (core ++ ".zip".data) = core := by
  unfold pyStem
  rw [rfindChar_append_zip]
  have h1 : 0 < core.length := List.length_pos.mpr hc
  have h2 : core.length < (core ++ ".zip".data).length - 1 := by
    have h0 : (".zip".data).length = 4 := rfl
    simp [List.length_append, h0]
  show (if 0 < core.length ∧ core.length < (core ++ ".zip".data).length - 1
      then List.take core.length (core ++ ".zip".data)
      else core ++ ".zip".data) = core
  rw [if_pos ⟨h1, h2⟩]
  exact List.take_left core _

theorem pyStem_append_gz (core : List Char) (hc : core ≠ []) :
    pyStem (core ++ ".gz".data) = core := by
  unfold pyStem
  rw [rfindChar_append_gz]
  have h1 : 0 < core.length := List.length_pos.mpr hc
  have h2 : core.length < (core ++ ".gz".data).length - 1 := by
    have h0 : (".gz".data).length = 3 := rfl
    simp [List.length_append, h0]
  show (if 0 < core.length ∧ core.length < (core ++ ".gz".data).length - 1
      then List.take core.length (core ++ ".gz".data)
      else core ++ ".gz".data) = core
  rw [if_pos ⟨h1, h2⟩]
  exact List.take_left core _

/-- Claim C1, counterexample: the tar-gzip group is not always the filename
with only the `.gz` and `.tar` suffixes stripped.  The discovered archive
name `a.tar.tar.gz` gets group `a`, because line 35 removes every occurrence
of `.tar` from the stem, not just the final suffix; stripping only the two
suffixes would give `a.tar`. -/
theorem C1_counterexample :
    isDiscoveredTarGz "a.tar.tar.gz".data = true ∧
    "a.tar.tar.gz".data.take ("a.tar.tar.gz".data.length - 7) = "a.tar".data ∧
    tarGroup "a.tar.tar.gz".data = "a".data ∧
    ¬ tarGroup "a.tar.tar.gz".data =
        "a.tar.tar.gz".data.take ("a.tar.tar.gz".data.length - 7) := by
  decide

/-- Claim C1 (amended): for every discovered zip archive the group is the
filename with the `.zip` suffix stripped; for every discovered tar-gzip
archive the group is the stem with every occurrence of `.tar` removed, which
equals the filename with the `.gz` and `.tar` suffixes stripped whenever the
remainder contains no further occurrence of `.tar`; in particular
`group("foo.tar.gz") = "foo"` and `group("bar.zip") = "bar"`. -/
theorem C1_theorem :
    (∀ name : List Char, isDiscoveredZip name = true →
      zipGroup name = name.take (name.length - 4)) ∧
    (∀ name : List Char, isDiscoveredTarGz name = true →
      ¬ (".tar".data <:+: name.take (name.length - 7)) →
      tarGroup name = name.take (name.length - 7)) ∧
    tarGroup "foo.tar.gz".data = "foo".data ∧
    zipGroup "bar.zip".data = "bar".data := by
  refine ⟨?_, ?_, by decide, by decide⟩
  · intro name h
    rw [isDiscoveredZip, Bool.and_eq_true] at h
    obtain ⟨hsuf, hhead⟩ := h
    obtain ⟨core, rfl⟩ := List.isSuffixOf_iff_suffix.mp hsuf
    have hc : core ≠ [] := by
      intro h0
      subst h0
      revert hhead
      decide
    rw [zipGroup, pyStem_append_zip core hc]
    have hlen : (core ++ ".zip".data).length - 4 = core.length := by
      have h0 : (".zip".data).length = 4 := rfl
      rw [List.length_append, h0]
      omega
    rw [hlen]
    exact (List.take_left core _).symm
  · intro name h hinf
    rw [isDiscoveredTarGz, Bool.and_eq_true] at h
    obtain ⟨hsuf, _⟩ := h
    obtain ⟨core, rfl⟩ := List.isSuffixOf_iff_suffix.mp hsuf
    have htake : (core ++ ".tar.gz".data).take
        ((core ++ ".tar.gz".data).length - 7) = core := by
      have h0 : (".tar.gz".data).length = 7 := rfl
      rw [List.length_append, h0]
      have h1 : core.length + 7 - 7 = core.length := by omega
      rw [h1]
      exact List.take_left core _
    rw [htake] at hinf ⊢
    have hassoc : core ++ ".tar.gz".data =
        (core ++ ".tar".data) ++ ".gz".data := by
      have h0 : ".tar.gz".data = ".tar".data ++ ".gz".data := by decide
      rw [h0, List.append_assoc]
    have hcore' : core ++ ".tar".data ≠ [] := by simp
    rw [tarGroup, hassoc, pyStem_append_gz _ hcore',
      pyReplace_append_pat core ".tar".data [] (by decide) (by decide) hinf]
    exact List.append_nil core

/-- Witness for `C1_theorem` at the concrete archives `bar.zip` and
`x.tar.gz`. -/
theorem C1_witness :
    zipGroup wBarZip = wBarZip.take (wBarZip.length - 4) ∧
    tarGroup wXTarGz = wXTarGz.take (wXTarGz.length - 7) :=
  ⟨C1_theorem.1 wBarZip (by decide),
   C1_theorem.2.1 wXTarGz (by decide) (by decide)⟩

/-- Claim C4, counterexample: the code's bucket labels contain spaces
(`get_size_category` returns `"< 1KB"`, not `"<1KB"`), so a 1023-byte
payload is not mapped to the label `"<1KB"` the claim names. -/
theorem C4_counterexample :
    get_size_category 1023 = "< 1KB".data ∧
    ¬ get_size_category 1023 = "<1KB".data := by
  decide

/-- Claim C4 (amended): the size-bucketing function maps every non-negative
integer size to exactly one bucket with left-inclusive boundaries, the
buckets being labelled `"< 1KB"`, `"1KB - 10KB"`, `"10KB - 100KB"`,
`"100KB - 1MB"` and `"> 1MB"` (with spaces, as the code spells them):
sizes below 1024 to the first, `[1024, 10240)` to the second,
`[10240, 102400)` to the third, `[102400, 1048576)` to the fourth and sizes
from 1048576 up to the fifth; in particular 1024 lands in `"1KB - 10KB"`,
1023 in `"< 1KB"`, with the same rule at 10240, 102400 and 1048576. -/
theorem C4_theorem :
    (∀ n : Nat,
      (get_size_category n = "< 1KB".data ↔ n < 1024) ∧
      (get_size_category n = "1KB - 10KB".data ↔ 1024 ≤ n ∧ n < 10240) ∧
      (get_size_category n = "10KB - 100KB".data ↔ 10240 ≤ n ∧ n < 102400) ∧
      (get_size_category n = "100KB - 1MB".data ↔ 102400 ≤ n ∧ n < 1048576) ∧
      (get_size_category n = "> 1MB".data ↔ 1048576 ≤ n)) ∧
    get_size_category 1023 = "< 1KB".data ∧
    get_size_category 1024 = "1KB - 10KB".data ∧
    get_size_category 10239 = "1KB - 10KB".data ∧
    get_size_category 10240 = "10KB - 100KB".data ∧
    get_size_category 102399 = "10KB - 100KB".data ∧
    get_size_category 102400 = "100KB - 1MB".data ∧
    get_size_category 1048575 = "100KB - 1MB".data ∧
    get_size_category 1048576 = "> 1MB".data := by
  refine ⟨?_, by decide, by decide, by decide, by decide, by decide,
    by decide, by decide, by decide⟩
  intro n
  unfold get_size_category
  split_ifs with h1 h2 h3 h4 <;>
    refine ⟨⟨fun hx => ?_, fun hx => ?_⟩, ⟨fun hx => ?_, fun hx => ?_⟩,
      ⟨fun hx => ?_, fun hx => ?_⟩, ⟨fun hx => ?_, fun hx => ?_⟩,
      ⟨fun hx => ?_, fun hx => ?_⟩⟩ <;>
    first
      | rfl
      | omega
      | exact absurd hx (by decide)

/-! Characterization of the extraction loops. -/

theorem tarRecs_eq_filter_map (g : List Char) (ms : List TarMember)
    (h : ∀ m ∈ ms, m.isfile = true → isMidiName m.name = true →
      ∃ c, m.extract = ExtractOutcome.ok c) :
    ms.flatMap (tarMemberRecs g) =
      (ms.filter fun m => m.isfile && isMidiName m.name).map (tarRecord g) := by
  induction ms with
  | nil => rfl
  | cons m ms ih =>
    have hrest : ∀ m' ∈ ms, m'.isfile = true → isMidiName m'.name = true →
        ∃ c, m'.extract = ExtractOutcome.ok c :=
      fun m' hm' => h m' (List.mem_cons_of_mem _ hm')
    rw [List.flatMap_cons, List.filter_cons]
    cases hp : (m.isfile && isMidiName m.name) with
    | false =>
      have hrecs : tarMemberRecs g m = [] := by
        simp [tarMemberRecs, hp]
      simp [hrecs]
      exact ih hrest
    | true =>
      obtain ⟨c, hc⟩ := h m (List.mem_cons_self m ms)
        (Bool.and_eq_true_iff.mp hp).1 (Bool.and_eq_true_iff.mp hp).2
      have hrecs : tarMemberRecs g m = [tarRecord g m] := by
        simp [tarMemberRecs, hp, hc, tarRecord, tarContent]
      simp [hrecs]
      exact ih hrest

theorem zipRecs_eq_filter_map (g : List Char) (fis : List ZipInfo)
    (h : ∀ fi ∈ fis, zipIsDir fi = false → isMidiName fi.filename = true →
      ∃ c, fi.read = some c) :
    fis.flatMap (zipEntryRecs g) =
      (fis.filter fun fi => !zipIsDir fi && isMidiName fi.filename).map
        (zipRecord g) := by
  induction fis with
  | nil => rfl
  | cons fi fis ih =>
    have hrest : ∀ fi' ∈ fis, zipIsDir fi' = false →
        isMidiName fi'.filename = true → ∃ c, fi'.read = some c :=
      fun fi' hm' => h fi' (List.mem_cons_of_mem _ hm')
    rw [List.flatMap_cons, List.filter_cons]
    cases hp : (!zipIsDir fi && isMidiName fi.filename) with
    | false =>
      have hrecs : zipEntryRecs g fi = [] := by
        simp [zipEntryRecs, hp]
      simp [hrecs]
      exact ih hrest
    | true =>
      have hp' := Bool.and_eq_true_iff.mp hp
      obtain ⟨c, hc⟩ := h fi (List.mem_cons_self fi fis)
        (by simpa using hp'.1) hp'.2
      have hrecs : zipEntryRecs g fi = [zipRecord g fi] := by
        simp [zipEntryRecs, hp, hc, zipRecord, zipContent]
      simp [hrecs]
      exact ih hrest

/-- Claim C2: assuming every matching entry is successfully readable, the
records an archive contributes under its group are exactly one record per
regular-file entry whose name case-insensitively ends in `.mid` or `.midi`
(in entry order), and each emitted record's `file_name` is the basename of
the entry's name; entries failing the filter contribute nothing.  Stated
for both the tar path and the zip path, as a characterization equality plus
the two membership directions. -/
theorem C2_theorem :
    (∀ (apath : List Char) (ms : List TarMember),
      (∀ m ∈ ms, m.isfile = true → isMidiName m.name = true →
        ∃ c, m.extract = ExtractOutcome.ok c) →
      (extract_midi_from_tar apath (some ms)).1 =
        (ms.filter fun m => m.isfile && isMidiName m.name).map
          (tarRecord (tarGroup apath)) ∧
      (∀ m ∈ ms, m.isfile = true → isMidiName m.name = true →
        tarRecord (tarGroup apath) m ∈ (extract_midi_from_tar apath (some ms)).1) ∧
      (∀ r ∈ (extract_midi_from_tar apath (some ms)).1,
        (∃ m ∈ ms, m.isfile = true ∧ isMidiName m.name = true ∧
          r = tarRecord (tarGroup apath) m) ∧
        r.group = tarGroup apath)) ∧
    (∀ (apath : List Char) (fis : List ZipInfo),
      (∀ fi ∈ fis, zipIsDir fi = false → isMidiName fi.filename = true →
        ∃ c, fi.read = some c) →
      (extract_midi_from_zip apath (some fis)).1 =
        (fis.filter fun fi => !zipIsDir fi && isMidiName fi.filename).map
          (zipRecord (zipGroup apath)) ∧
      (∀ fi ∈ fis, zipIsDir fi = false → isMidiName fi.filename = true →
        zipRecord (zipGroup apath) fi ∈ (extract_midi_from_zip apath (some fis)).1) ∧
      (∀ r ∈ (extract_midi_from_zip apath (some fis)).1,
        (∃ fi ∈ fis, zipIsDir fi = false ∧ isMidiName fi.filename = true ∧
          r = zipRecord (zipGroup apath) fi) ∧
        r.group = zipGroup apath)) := by
  constructor
  · intro apath ms h
    have hchar := tarRecs_eq_filter_map (tarGroup apath) ms h
    refine ⟨hchar, ?_, ?_⟩
    · intro m hm hf hmid
      show tarRecord (tarGroup apath) m ∈ ms.flatMap (tarMemberRecs (tarGroup apath))
      rw [hchar]
      exact List.mem_map_of_mem _ (List.mem_filter.mpr ⟨hm, by simp [hf, hmid]⟩)
    · intro r hr
      rw [show (extract_midi_from_tar apath (some ms)).1 =
          ms.flatMap (tarMemberRecs (tarGroup apath)) from rfl, hchar] at hr
      obtain ⟨m, hmf, hrm⟩ := List.mem_map.mp hr
      obtain ⟨hm, hflags⟩ := List.mem_filter.mp hmf
      have hflags' := Bool.and_eq_true_iff.mp hflags
      refine ⟨⟨m, hm, hflags'.1, hflags'.2, hrm.symm⟩, ?_⟩
      rw [← hrm]
      rfl
  · intro apath fis h
    have hchar := zipRecs_eq_filter_map (zipGroup apath) fis h
    refine ⟨hchar, ?_, ?_⟩
    · intro fi hm hd hmid
      show zipRecord (zipGroup apath) fi ∈ fis.flatMap (zipEntryRecs (zipGroup apath))
      rw [hchar]
      exact List.mem_map_of_mem _
        (List.mem_filter.mpr ⟨hm, by simp [hd, hmid]⟩)
    · intro r hr
      rw [show (extract_midi_from_zip apath (some fis)).1 =
          fis.flatMap (zipEntryRecs (zipGroup apath)) from rfl, hchar] at hr
      obtain ⟨fi, hmf, hrm⟩ := List.mem_map.mp hr
      obtain ⟨hm, hflags⟩ := List.mem_filter.mp hmf
      have hflags' := Bool.and_eq_true_iff.mp hflags
      refine ⟨⟨fi, hm, by simpa using hflags'.1, hflags'.2, hrm.symm⟩, ?_⟩
      rw [← hrm]
      rfl

/-- Witness for `C2_theorem`: one tar archive whose entries are a directory,
a non-MIDI file, and a readable `d/song.mid`; only the latter is emitted,
with its basename as `file_name`. -/
theorem C2_witness :
    (extract_midi_from_tar wTarName
        (some [wTarMemberDir, wTarMemberTxt, wTarMemberMid])).1 =
      [⟨"a".data, "song.mid".data, [77, 84], 2⟩] := by
  have hread : ∀ m ∈ [wTarMemberDir, wTarMemberTxt, wTarMemberMid],
      m.isfile = true → isMidiName m.name = true →
      ∃ c, m.extract = ExtractOutcome.ok c := by
    intro m hm
    simp only [List.mem_cons, List.not_mem_nil, or_false] at hm
    rcases hm with rfl | rfl | rfl
    · intro hf _
      exact absurd hf (by decide)
    · intro _ _
      exact ⟨[1], rfl⟩
    · intro _ _
      exact ⟨[77, 84], rfl⟩
  have h := (C2_theorem.1 wTarName [wTarMemberDir, wTarMemberTxt, wTarMemberMid] hread).1
  rw [h]
  decide

/-- Claim C3: every record ever produced, by the tar path, the zip path, or
their aggregation into the table in any completion order, has `file_size`
equal to the exact byte length of `content`; records are plain immutable
values, so the invariant holds of the final table as well. -/
theorem C3_theorem :
    (∀ (apath : List Char) (opened : Option (List TarMember)),
      ∀ r ∈ (extract_midi_from_tar apath opened).1,
        r.file_size = r.content.length) ∧
    (∀ (apath : List Char) (opened : Option (List ZipInfo)),
      ∀ r ∈ (extract_midi_from_zip apath opened).1,
        r.file_size = r.content.length) ∧
    (∀ order : List Archive, ∀ r ∈ process_archives_order order,
      r.file_size = r.content.length) := by
  have htar : ∀ (apath : List Char) (opened : Option (List TarMember)),
      ∀ r ∈ (extract_midi_from_tar apath opened).1,
        r.file_size = r.content.length := by
    intro apath opened r hr
    cases opened with
    | none => simp [extract_midi_from_tar] at hr
    | some ms =>
      obtain ⟨m, _, hrm⟩ := List.mem_flatMap.mp hr
      rw [tarMemberRecs] at hrm
      split at hrm
      · split at hrm
        · simp at hrm
          subst hrm
          rfl
        · simp at hrm
        · simp at hrm
      · simp at hrm
  have hzip : ∀ (apath : List Char) (opened : Option (List ZipInfo)),
      ∀ r ∈ (extract_midi_from_zip apath opened).1,
        r.file_size = r.content.length := by
    intro apath opened r hr
    cases opened with
    | none => simp [extract_midi_from_zip] at hr
    | some fis =>
      obtain ⟨fi, _, hrm⟩ := List.mem_flatMap.mp hr
      rw [zipEntryRecs] at hrm
      split at hrm
      · split at hrm
        · simp at hrm
          subst hrm
          rfl
        · simp at hrm
      · simp at hrm
  refine ⟨htar, hzip, ?_⟩
  intro order r hr
  obtain ⟨a, _, hra⟩ := List.mem_flatMap.mp hr
  rw [process_single_archive] at hra
  split at hra
  · exact hzip a.name a.zipOpened r hra
  · split at hra
    · exact htar a.name a.tarOpened r hra
    · simp at hra

/-- Witness for `C3_theorem` at a concrete zip archive and its one emitted
record. -/
theorem C3_witness :
    wZipArchiveRecord.file_size = wZipArchiveRecord.content.length :=
  C3_theorem.2.2 [wZipArchive] wZipArchiveRecord (by decide)

/-- Claim C5: the extraction worker never propagates a failure.  If opening
the archive fails it logs the open error and returns the empty record list
(both formats); if reading one matching entry fails it logs a warning for
just that entry, emits no record for it, and the records of the archive are
exactly those of the remaining entries, before and after the failing one. -/
theorem C5_theorem :
    (∀ apath : List Char,
      extract_midi_from_tar apath none = ([], [LogMsg.openErr apath])) ∧
    (∀ apath : List Char,
      extract_midi_from_zip apath none = ([], [LogMsg.openErr apath])) ∧
    (∀ (apath : List Char) (pre post : List TarMember) (m : TarMember),
      m.isfile = true → isMidiName m.name = true →
      m.extract = ExtractOutcome.exn →
      (extract_midi_from_tar apath (some (pre ++ m :: post))).1 =
        (extract_midi_from_tar apath (some pre)).1 ++
          (extract_midi_from_tar apath (some post)).1 ∧
      LogMsg.readWarn apath m.name ∈
        (extract_midi_from_tar apath (some (pre ++ m :: post))).2) ∧
    (∀ (apath : List Char) (pre post : List ZipInfo) (fi : ZipInfo),
      zipIsDir fi = false → isMidiName fi.filename = true →
      fi.read = none →
      (extract_midi_from_zip apath (some (pre ++ fi :: post))).1 =
        (extract_midi_from_zip apath (some pre)).1 ++
          (extract_midi_from_zip apath (some post)).1 ∧
      LogMsg.readWarn apath fi.filename ∈
        (extract_midi_from_zip apath (some (pre ++ fi :: post))).2) := by
  refine ⟨fun _ => rfl, fun _ => rfl, ?_, ?_⟩
  · intro apath pre post m hf hmid hexn
    have hrecs : tarMemberRecs (tarGroup apath) m = [] := by
      simp [tarMemberRecs, hf, hmid, hexn]
    have hlogs : tarMemberLogs apath m = [LogMsg.readWarn apath m.name] := by
      simp [tarMemberLogs, hf, hmid, hexn]
    constructor
    · show (pre ++ m :: post).flatMap (tarMemberRecs (tarGroup apath)) =
        pre.flatMap (tarMemberRecs (tarGroup apath)) ++
          post.flatMap (tarMemberRecs (tarGroup apath))
      rw [List.flatMap_append, List.flatMap_cons, hrecs, List.nil_append]
    · show LogMsg.readWarn apath m.name ∈
        (pre ++ m :: post).flatMap (tarMemberLogs apath)
      refine List.mem_flatMap.mpr ⟨m, ?_, ?_⟩
      · exact List.mem_append.mpr (Or.inr (List.mem_cons_self m post))
      · rw [hlogs]
        exact List.mem_singleton.mpr rfl
  · intro apath pre post fi hd hmid hexn
    have hrecs : zipEntryRecs (zipGroup apath) fi = [] := by
      simp [zipEntryRecs, hd, hmid, hexn]
    have hlogs : zipEntryLogs apath fi = [LogMsg.readWarn apath fi.filename] := by
      simp [zipEntryLogs, hd, hmid, hexn]
    constructor
    · show (pre ++ fi :: post).flatMap (zipEntryRecs (zipGroup apath)) =
        pre.flatMap (zipEntryRecs (zipGroup apath)) ++
          post.flatMap (zipEntryRecs (zipGroup apath))
      rw [List.flatMap_append, List.flatMap_cons, hrecs, List.nil_append]
    · show LogMsg.readWarn apath fi.filename ∈
        (pre ++ fi :: post).flatMap (zipEntryLogs apath)
      refine List.mem_flatMap.mpr ⟨fi, ?_, ?_⟩
      · exact List.mem_append.mpr (Or.inr (List.mem_cons_self fi post))
      · rw [hlogs]
        exact List.mem_singleton.mpr rfl

/-- Witness for `C5_theorem`: a zip archive whose middle entry fails to
read: the other entries' records survive and the warning is logged. -/
theorem C5_witness :
    (extract_midi_from_zip wZipName
        (some [wZipEntryX, wZipEntryY, wZipEntryZ])).1 =
      (extract_midi_from_zip wZipName (some [wZipEntryX])).1 ++
        (extract_midi_from_zip wZipName (some [wZipEntryZ])).1 ∧
    LogMsg.readWarn wZipName wZipEntryY.filename ∈
      (extract_midi_from_zip wZipName
        (some [wZipEntryX, wZipEntryY, wZipEntryZ])).2 :=
  C5_theorem.2.2.2 wZipName [wZipEntryX] [wZipEntryZ] wZipEntryY
    (by decide) (by decide) rfl

/-- Claim C10: in the tar path, a regular-file member with a matching name
for which `tar.extractfile` returns `None` is skipped silently: the
archive's output, records and log lines alike, is exactly as if the member
were absent; by contrast a member whose extraction raises does produce a
log line. -/
theorem C10_theorem :
    ∀ (apath : List Char) (pre post : List TarMember) (m : TarMember),
      m.isfile = true → isMidiName m.name = true →
      m.extract = ExtractOutcome.noObj →
      (extract_midi_from_tar apath (some (pre ++ m :: post)) =
        extract_midi_from_tar apath (some (pre ++ post)) ∧
      ∀ m' : TarMember, m'.isfile = true → isMidiName m'.name = true →
        m'.extract = ExtractOutcome.exn →
        extract_midi_from_tar apath (some [m']) =
          ([], [LogMsg.readWarn apath m'.name])) := by
  intro apath pre post m hf hmid hnoobj
  have hrecs : tarMemberRecs (tarGroup apath) m = [] := by
    simp [tarMemberRecs, hf, hmid, hnoobj]
  have hlogs : tarMemberLogs apath m = [] := by
    simp [tarMemberLogs, hf, hmid, hnoobj]
  constructor
  · show ((pre ++ m :: post).flatMap (tarMemberRecs (tarGroup apath)),
        (pre ++ m :: post).flatMap (tarMemberLogs apath)) =
      ((pre ++ post).flatMap (tarMemberRecs (tarGroup apath)),
        (pre ++ post).flatMap (tarMemberLogs apath))
    rw [List.flatMap_append, List.flatMap_cons, hrecs, List.nil_append,
      List.flatMap_append, List.flatMap_cons, hlogs, List.nil_append,
      List.flatMap_append, List.flatMap_append]
  · intro m' hf' hmid' hexn'
    show ([m'].flatMap (tarMemberRecs (tarGroup apath)),
        [m'].flatMap (tarMemberLogs apath)) = ([], [LogMsg.readWarn apath m'.name])
    have h1 : tarMemberRecs (tarGroup apath) m' = [] := by
      simp [tarMemberRecs, hf', hmid', hexn']
    have h2 : tarMemberLogs apath m' = [LogMsg.readWarn apath m'.name] := by
      simp [tarMemberLogs, hf', hmid', hexn']
    simp [h1, h2]

/-- Witness for `C10_theorem`: a matching member with a `None` file object
between two readable ones leaves the archive output unchanged, and an
archive holding only a raising member logs the warning. -/
theorem C10_witness :
    (extract_midi_from_tar wTarName
        (some [wTarMemberX, wTarMemberY, wTarMemberZ]) =
      extract_midi_from_tar wTarName (some [wTarMemberX, wTarMemberZ])) ∧
    extract_midi_from_tar wTarName (some [wTarMemberW]) =
      ([], [LogMsg.readWarn wTarName wTarMemberW.name]) := by
  have h := C10_theorem wTarName [wTarMemberX] [wTarMemberZ] wTarMemberY
    (by decide) (by decide) rfl
  exact ⟨h.1, h.2 wTarMemberW (by decide) (by decide) rfl⟩

/-- Claim C6: the modelled exit code is 1 exactly when the input directory
is missing, the input path is not a directory, no archives are found, or no
matching payload files are extracted from all archives combined; it is 0
exactly otherwise; the exit code is always 0 or 1; and in the zero-archives
case no output artifact is created. -/
theorem C6_theorem :
    ∀ ri : RunInput,
      ((mainModel ri).exitCode = 1 ↔
        (ri.inputExists = false ∨ ri.inputIsDir = false ∨ ri.archives = [] ∨
          process_archives_order ri.archives = [])) ∧
      ((mainModel ri).exitCode = 0 ↔
        (ri.inputExists = true ∧ ri.inputIsDir = true ∧ ri.archives ≠ [] ∧
          process_archives_order ri.archives ≠ [])) ∧
      ((mainModel ri).exitCode = 0 ∨ (mainModel ri).exitCode = 1) ∧
      (ri.archives = [] → (mainModel ri).artifactWritten = false) := by
  intro ri
  obtain ⟨e, d, as⟩ := ri
  cases e <;> cases d
  all_goals simp [mainModel, List.isEmpty_iff]
  all_goals rcases Decidable.em (as = []) with h0 | h0
  all_goals simp [h0]
  all_goals rcases Decidable.em (process_archives_order as = []) with h1 | h1
  all_goals simp [h0, h1, save_to_parquet, List.length_eq_zero]

/-- Witness for `C6_theorem`: a run over an existing directory holding one
zip archive with one readable MIDI entry exits 0; the implication conjunct
is discharged at a run with no archives. -/
theorem C6_witness :
    (mainModel ⟨true, true, [wZipArchive]⟩).exitCode = 0 ∧
    (mainModel ⟨true, true, []⟩).artifactWritten = false := by
  constructor
  · have h := (C6_theorem ⟨true, true, [wZipArchive]⟩).2.1
    exact h.mpr ⟨rfl, rfl, by decide, by decide⟩
  · exact (C6_theorem ⟨true, true, []⟩).2.2.2 rfl

/-- Claim C7: persisting an empty table is a no-op with a warning: no
artifact is written, no output directory is created, no record count is
reported; persisting a non-empty table writes the artifact and reports the
number of records written. -/
theorem C7_theorem :
    ∀ df : List Record,
      (df = [] →
        save_to_parquet df =
          ⟨false, false, true, none⟩) ∧
      (df ≠ [] →
        (save_to_parquet df).wroteArtifact = true ∧
        (save_to_parquet df).warnedEmpty = false ∧
        (save_to_parquet df).reportedCount = some df.length) := by
  intro df
  cases df with
  | nil => exact ⟨fun _ => rfl, fun h => absurd rfl h⟩
  | cons r rs =>
    refine ⟨fun h => by simp at h, fun _ => ?_⟩
    have h1 : (r :: rs).length ≠ 0 := by simp
    simp [save_to_parquet, h1]

/-- Witness for `C7_theorem` on the empty table and on a one-record
table. -/
theorem C7_witness :
    save_to_parquet [] = ⟨false, false, true, none⟩ ∧
    (save_to_parquet [wRecord]).reportedCount = some 1 := by
  constructor
  · exact (C7_theorem []).1 rfl
  · have h := (C7_theorem [wRecord]).2 (by simp)
    exact h.2.2

/-- Claim C8, counterexample: with 4 available processing units but only 2
discovered archives and no `--jobs` value, the pool size is 2, not the
4 processing units the claim's second half (the CLI-interface reading)
asserts. -/
theorem C8_counterexample :
    effective_max_workers none 4 2 = 2 ∧
    ¬ effective_max_workers none 4 2 = 4 := by
  decide

/-- Claim C8 (amended): when no worker-count configuration is supplied the
pool size defaults to min(available processing units, archive count): it
equals the processing-unit count exactly when at least that many archives
were found, equals the archive count when there are fewer archives than
units, and never exceeds either; an explicit `--jobs` value is used as
given.  The CLI help's "default = available processing units" holds only in
the first case. -/
theorem C8_theorem :
    (∀ cpuCount nArchives : Nat, cpuCount ≤ nArchives →
      effective_max_workers none cpuCount nArchives = cpuCount) ∧
    (∀ cpuCount nArchives : Nat, nArchives ≤ cpuCount →
      effective_max_workers none cpuCount nArchives = nArchives) ∧
    (∀ cpuCount nArchives : Nat,
      effective_max_workers none cpuCount nArchives ≤ cpuCount ∧
      effective_max_workers none cpuCount nArchives ≤ nArchives) ∧
    (∀ (j cpuCount nArchives : Nat),
      effective_max_workers (some j) cpuCount nArchives = j) := by
  refine ⟨?_, ?_, ?_, fun _ _ _ => rfl⟩
  · intro c n h
    simp [effective_max_workers, default_max_workers, Nat.min_eq_left h]
  · intro c n h
    simp [effective_max_workers, default_max_workers, Nat.min_eq_right h]
  · intro c n
    exact ⟨Nat.min_le_left c n, Nat.min_le_right c n⟩

/-- Witness for `C8_theorem` at 4 processing units and 8 archives. -/
theorem C8_witness :
    effective_max_workers none 4 8 = 4 ∧
    effective_max_workers none 8 4 = 4 :=
  ⟨C8_theorem.1 4 8 (by decide), C8_theorem.2.1 8 4 (by decide)⟩

/-- Claim C9: the table is order-insensitive: any two completion orders that
are permutations of each other (in particular, any order a pool of size N
produces versus the sequential order of pool size 1) yield permutation-equal
tables, hence the same multiset of records and identical aggregate
statistics: total count, total byte size, every size-bucket count and every
per-group count. -/
theorem C9_theorem :
    ∀ archives order : List Archive, order.Perm archives →
      (process_archives_order order).Perm (process_archives_order archives) ∧
      Multiset.ofList (process_archives_order order) =
        Multiset.ofList (process_archives_order archives) ∧
      totalCount (process_archives_order order) =
        totalCount (process_archives_order archives) ∧
      totalSize (process_archives_order order) =
        totalSize (process_archives_order archives) ∧
      (∀ b : List Char, bucketCount b (process_archives_order order) =
        bucketCount b (process_archives_order archives)) ∧
      (∀ g : List Char, groupCount g (process_archives_order order) =
        groupCount g (process_archives_order archives)) := by
  intro archives order hperm
  have hp : (process_archives_order order).Perm
      (process_archives_order archives) :=
    List.Perm.flatMap_right process_single_archive hperm
  refine ⟨hp, Quot.sound hp, hp.length_eq, ?_, ?_, ?_⟩
  · exact (hp.map Record.file_size).sum_eq
  · intro b
    exact hp.countP_eq _
  · intro g
    exact hp.countP_eq _

/-- Witness for `C9_theorem`: two archives processed in the two possible
completion orders give the same multiset of records. -/
theorem C9_witness :
    Multiset.ofList (process_archives_order [wZipArchive, wTarArchive]) =
      Multiset.ofList (process_archives_order [wTarArchive, wZipArchive]) :=
  (C9_theorem [wTarArchive, wZipArchive] [wZipArchive, wTarArchive]
    (by decide)).2.1

end MidiParquet
